import Mathlib

/-!
Shallow embedding of the zilswap-webapp token-synchronization core
(`AppButler` component) and of the preference reducer
(`src/app/store/preference/reducer.ts`), with theorems checking the
natural-language specification against the code.

JavaScript objects used as string-keyed dictionaries are embedded as
association lists with first-match lookup and replace-or-append
assignment, which reproduces JS property-assignment semantics
(`o[k] = v` overwrites an existing key, otherwise appends).
Arbitrary-precision `BN` values are embedded as `Nat`.
-/

namespace Zilswap

/-- Lookup of a key in a JS-object embedding: first entry whose key
matches (objects built by `objSet` have unique keys). -/
def objGet {α : Type} (o : List (String × α)) (k : String) : Option α :=
  (o.find? (fun p => p.1 == k)).map (fun p => p.2)

/-- Assignment `o[k] = v` on a JS-object embedding: replaces the first
entry with key `k`, or appends a fresh entry. -/
def objSet {α : Type} : List (String × α) → String → α → List (String × α)
  | [], k, v => [(k, v)]
  | p :: o, k, v => if p.1 == k then (k, v) :: o else p :: objSet o k v

/-- Reading a key right after assigning it yields the assigned value. -/
theorem objGet_objSet_self {α : Type} (o : List (String × α)) (k : String) (v : α) :
    objGet (objSet o k v) k = some v := by
  induction o with
  | nil => simp [objGet, objSet]
  | cons p o ih =>
    by_cases h : p.1 == k
    · simp [objGet, objSet, h]
    · simp only [objSet, h, if_neg, Bool.false_eq_true, not_false_eq_true, ite_false]
      simpa [objGet, h] using ih

/-- Assignment to one key leaves lookups of other keys unchanged. -/
theorem objGet_objSet_ne {α : Type} (o : List (String × α)) (k k' : String) (v : α)
    (h : k' ≠ k) : objGet (objSet o k v) k' = objGet o k' := by
  have h2 : (k == k') = false := beq_eq_false_iff_ne.mpr (Ne.symm h)
  induction o with
  | nil => simp [objGet, objSet, List.find?, h2]
  | cons p o ih =>
    by_cases hp : p.1 == k
    · have hpk : p.1 = k := by simpa using hp
      have h3 : (p.1 == k') = false := by rw [hpk]; exact h2
      simp [objGet, objSet, hp, List.find?, h2, h3]
    · simp only [objSet, hp, Bool.false_eq_true, if_false]
      by_cases hpk' : p.1 == k'
      · simp [objGet, List.find?, hpk']
      · simp only [objGet, List.find?] at ih ⊢
        simp [hpk', ih]

/-- Named contract parameter as returned by a contract init query:
`Value` from `@zilliqa-js/contract` (`vname`, `type`, `value`). -/
structure Value where
  vname : String
  type : String
  value : String
  deriving Repr, DecidableEq

/-- Embedding of `zilParamsToMap` (src/unnamed/part_000, lines 72-77):
folds the parameter array into a JS object, assigning
`output[set.vname] = set.value` for each entry in order. -/
def zilParamsToMap (params : List Value) : List (String × String) :=
  params.foldl (fun output set => objSet output set.vname set.value) []

/-- Specification function: value of the LAST entry of the sequence
carrying the given name, if any. -/
def lastValueNamed : List Value → String → Option String
  | [], _ => none
  | p :: ps, n =>
    match lastValueNamed ps n with
    | some v => some v
    | none => if p.vname == n then some p.value else none

/-- Accumulator-generalised helper: looking a name up in the object
built by folding parameter assignments over `o` yields the last entry
with that name, falling back to `o` when the name never occurs. -/
theorem objGet_foldl_params (ps : List Value) (o : List (String × String)) (n : String) :
    objGet (ps.foldl (fun output set => objSet output set.vname set.value) o) n =
      match lastValueNamed ps n with
      | some v => some v
      | none => objGet o n := by
  induction ps generalizing o with
  | nil => simp [lastValueNamed]
  | cons p ps ih =>
    simp only [List.foldl_cons, lastValueNamed]
    rw [ih]
    cases hrec : lastValueNamed ps n with
    | some v => simp
    | none =>
      by_cases hn : p.vname == n
      · have hv : p.vname = n := by simpa using hn
        simp [hn, hv, objGet_objSet_self]
      · have hne : n ≠ p.vname := fun hh => by simp [hh] at hn
        simp [hn, objGet_objSet_ne o p.vname n p.value hne]

/-- Conversion of a decimal-string `BN` constructor argument to `Nat`
(`new BN(s)`); malformed strings are mapped to `0` as a totalisation of
the embedding (the claims never depend on malformed numerals). -/
def bnOfString (s : String) : Nat :=
  if s.data.all Char.isDigit then
    s.data.foldl (fun n c => n * 10 + (c.toNat - 48)) 0
  else 0

/-- Embedding of JS `toLowerCase()` as used on chain addresses:
character-wise ASCII lowercasing (addresses are hexadecimal strings, so
the ASCII and Unicode lowerings agree). -/
def toLowerCase (s : String) : String :=
  ⟨s.data.map Char.toLower⟩

/-- Opaque reference to liquidity-pool information as returned by
`ZilswapConnector.getPool`; its contents are never inspected by the
embedded code. -/
structure Pool where
  ref : Nat
  deriving Repr, DecidableEq

/-- Token representation from zilswap-sdk (`TokenDetails`), restricted
to the fields the embedded code reads. -/
structure TokenDetails where
  address : String
  decimals : Nat
  symbol : String
  deriving Repr, DecidableEq

/-- Application token state (`TokenInfo` from app/store/types),
with `BN` embedded as `Nat` and optional/absent fields as defaults. -/
structure TokenInfo where
  initialized : Bool
  isZil : Bool
  dirty : Bool
  address : String
  decimals : Nat
  symbol : String
  name : String
  balance : Nat
  init_supply : Nat
  balances : List (String × Nat)
  loading : Bool := false
  listPriority : Option Nat := none
  pool : Option Pool := none
  deriving Repr, DecidableEq

/-- Address info of a connected wallet; the embedded code reads the
`byte20` address and the optional private key. -/
structure WalletAddressInfo where
  byte20 : String
  privateKey : Option String := none
  deriving Repr, DecidableEq

/-- Connected wallet snapshot (`ConnectedWallet` from core/wallet),
restricted to the fields the embedded code reads. -/
structure ConnectedWallet where
  addressInfo : WalletAddressInfo
  balance : Nat
  network : String := ""
  deriving Repr, DecidableEq

/-- Sentinel address of the native-currency pseudo-token (`ZIL_HASH`
from zilswap-sdk constants). -/
def ZIL_HASH : String := "0x0000000000000000000000000000000000000000"

/-- Embedding of `mapZilswapToken` (src/unnamed/part_000, lines 28-41). -/
def mapZilswapToken (zilswapToken : TokenDetails) : TokenInfo :=
  { initialized := false
    isZil := false
    dirty := false
    address := zilswapToken.address
    decimals := zilswapToken.decimals
    symbol := zilswapToken.symbol
    name := ""
    balance := 0
    init_supply := 0
    balances := [] }

/-- Embedding of the `tokens["zil"]` pseudo-token literal injected by
the init effect (src/unnamed/part_000, lines 140-156). -/
def zilPseudoToken (wallet : ConnectedWallet) : TokenInfo :=
  { isZil := true
    dirty := false
    initialized := true
    listPriority := some 0
    address := ZIL_HASH
    decimals := 12
    balance := wallet.balance
    init_supply := 0
    name := "Zilliqa"
    symbol := "ZIL"
    balances := [(toLowerCase wallet.addressInfo.byte20, wallet.balance)] }

/-- Embedding of the token collection built by the init effect
(src/unnamed/part_000, lines 129-159): map every zilswap token through
`mapZilswapToken`, key the results by address, then assign the `"zil"`
pseudo-token. -/
def bootstrapTokens (zilswapTokens : List TokenDetails) (wallet : ConnectedWallet) :
    List (String × TokenInfo) :=
  let tokens := (zilswapTokens.map mapZilswapToken).foldl
    (fun tokens token => objSet tokens token.address token) []
  objSet tokens "zil" (zilPseudoToken wallet)

/-- Assignment preserves a property holding of every stored value, as
long as the assigned value has it too. -/
theorem objSet_forall {α : Type} {P : α → Prop} (o : List (String × α)) (k : String) (v : α)
    (ho : ∀ p ∈ o, P p.2) (hv : P v) : ∀ p ∈ objSet o k v, P p.2 := by
  induction o with
  | nil => simpa [objSet] using hv
  | cons q o ih =>
    by_cases hq : q.1 == k
    · simp only [objSet, hq, if_true]
      intro p hp
      rcases List.mem_cons.mp hp with h | h
      · simpa [h] using hv
      · exact ho p (List.mem_cons_of_mem q h)
    · simp only [objSet, hq, Bool.false_eq_true, if_false]
      intro p hp
      rcases List.mem_cons.mp hp with h | h
      · exact h ▸ ho q (List.mem_cons_self q o)
      · exact ih (fun r hr => ho r (List.mem_cons_of_mem q hr)) p h

/-- Every entry of the collection built by folding keyed assignments
over a token list satisfies a property holding of the accumulator's
values and of every listed token. -/
theorem forall_foldl_objSet {P : TokenInfo → Prop} (l : List TokenInfo)
    (acc : List (String × TokenInfo)) (hacc : ∀ p ∈ acc, P p.2) (hl : ∀ t ∈ l, P t) :
    ∀ p ∈ l.foldl (fun tokens token => objSet tokens token.address token) acc, P p.2 := by
  induction l generalizing acc with
  | nil => simpa using hacc
  | cons t l ih =>
    simp only [List.foldl_cons]
    exact ih _
      (objSet_forall acc t.address t hacc (hl t (List.mem_cons_self t l)))
      (fun u hu => hl u (List.mem_cons_of_mem t hu))

/-- Filtering on a Boolean token property that fails on every stored
value and holds of a newly assigned value isolates that assignment. -/
theorem filter_objSet_unique (o : List (String × TokenInfo)) (k : String) (v : TokenInfo)
    (ho : ∀ p ∈ o, p.2.isZil = false) (hv : v.isZil = true) :
    (objSet o k v).filter (fun p => p.2.isZil) = [(k, v)] := by
  induction o with
  | nil => simp [objSet, List.filter, hv]
  | cons q o ih =>
    have hq2 : q.2.isZil = false := ho q (List.mem_cons_self q o)
    by_cases hq : q.1 == k
    · simp only [objSet, hq, if_true]
      have hrest : ∀ p ∈ o, p.2.isZil = false :=
        fun p hp => ho p (List.mem_cons_of_mem q hp)
      have : o.filter (fun p => p.2.isZil) = [] := by
        rw [List.filter_eq_nil_iff]
        intro p hp
        simp [hrest p hp]
      simp [List.filter, hv, this]
    · simp only [objSet, hq, Bool.false_eq_true, if_false]
      have := ih (fun p hp => ho p (List.mem_cons_of_mem q hp))
      simp [List.filter, hq2, this]

/-- Flags set synchronously by the scheduler before dispatching a
refresh task (src/unnamed/part_000, lines 177-182): the entry is merged
with loading true, dirty false, initialized true. -/
def schedulerFlip (t : TokenInfo) : TokenInfo :=
  { t with loading := true, dirty := false, initialized := true }

/-- Guard of the refresh loop's `continue`
(src/unnamed/part_000, line 171): `token.initialized && !token.dirty`
skips entries that are initialized and not dirty. -/
def isFresh (p : String × TokenInfo) : Bool :=
  p.2.initialized && !p.2.dirty

/-- Embedding of the token-refresh effect's loop
(src/unnamed/part_000, lines 164-184) over a snapshot of the token
collection: entries with `initialized && !dirty` are skipped
(`continue`); for every other entry the loop dispatches one
`Token.update` carrying the flag flip and starts one `runQueryToken`
task. The first component collects the dispatched flag updates in
order, the second the addresses of the started refresh tasks. -/
def schedulerPass (tokens : List (String × TokenInfo)) :
    List (String × TokenInfo) × List String :=
  tokens.foldl
    (fun acc p =>
      if isFresh p then acc
      else (acc.1 ++ [(p.1, schedulerFlip p.2)], acc.2 ++ [p.1]))
    ([], [])

/-- Closed form of the scheduler pass: the dispatched updates and the
started tasks are the flag-flipped stale entries, in collection order. -/
theorem schedulerPass_eq_filter (tokens : List (String × TokenInfo)) :
    schedulerPass tokens =
      ((tokens.filter (fun p => !isFresh p)).map (fun p => (p.1, schedulerFlip p.2)),
        (tokens.filter (fun p => !isFresh p)).map Prod.fst) := by
  have general : ∀ (l : List (String × TokenInfo)) (u : List (String × TokenInfo))
      (ts : List String),
      l.foldl
        (fun acc p =>
          if isFresh p then acc
          else (acc.1 ++ [(p.1, schedulerFlip p.2)], acc.2 ++ [p.1]))
        (u, ts) =
      (u ++ (l.filter (fun p => !isFresh p)).map (fun p => (p.1, schedulerFlip p.2)),
        ts ++ (l.filter (fun p => !isFresh p)).map Prod.fst) := by
    intro l
    induction l with
    | nil => intro u ts; simp
    | cons p l ih =>
      intro u ts
      by_cases hp : isFresh p
      · rw [List.foldl_cons, if_pos hp, ih]
        simp [List.filter_cons, hp]
      · rw [List.foldl_cons, if_neg hp, ih]
        simp [List.filter_cons, hp]
  simpa using general tokens [] []

/-- Entries whose address never occurs among a collection's keys leave
no trace in the scheduler's filtered-and-mapped output lists. -/
theorem scheduler_filter_not_mem (tokens : List (String × TokenInfo)) (a : String)
    (ha : a ∉ tokens.map Prod.fst) :
    ((tokens.filter (fun p => !isFresh p)).map
        (fun p => (p.1, schedulerFlip p.2))).filter (fun u => u.1 == a) = []
    ∧ ((tokens.filter (fun p => !isFresh p)).map
        Prod.fst).filter (fun x => x == a) = [] := by
  induction tokens with
  | nil => exact ⟨rfl, rfl⟩
  | cons p l ih =>
    have hpa : ¬((p.1 == a) = true) := by
      have : p.1 ≠ a := fun h => ha (by simp [h])
      simpa using this
    have hrest : a ∉ l.map Prod.fst := fun h => ha (by simp [h])
    rcases ih hrest with ⟨ih1, ih2⟩
    by_cases hp : isFresh p
    · simp [List.filter_cons, hp, ih1, ih2]
    · simp [List.filter_cons, hp, hpa, ih1, ih2]

/-- In a collection with distinct keys, a stale entry contributes
exactly its own flag flip and exactly one refresh task, while a fresh
entry contributes nothing. -/
theorem scheduler_filter_mem (tokens : List (String × TokenInfo)) (a : String)
    (t : TokenInfo) (hnd : (tokens.map Prod.fst).Nodup) (hmem : (a, t) ∈ tokens) :
    ((tokens.filter (fun p => !isFresh p)).map
        (fun p => (p.1, schedulerFlip p.2))).filter (fun u => u.1 == a)
        = (if isFresh (a, t) then [] else [(a, schedulerFlip t)])
    ∧ ((tokens.filter (fun p => !isFresh p)).map
        Prod.fst).filter (fun x => x == a)
        = (if isFresh (a, t) then [] else [a]) := by
  induction tokens with
  | nil => cases hmem
  | cons p l ih =>
    have hnd2 : (l.map Prod.fst).Nodup := (List.nodup_cons.mp hnd).2
    have hpnot : p.1 ∉ l.map Prod.fst := (List.nodup_cons.mp hnd).1
    rcases List.mem_cons.mp hmem with heq | hmeml
    · have hpat : p = (a, t) := heq.symm
      subst hpat
      have hanot : a ∉ l.map Prod.fst := hpnot
      rcases scheduler_filter_not_mem l a hanot with ⟨z1, z2⟩
      by_cases hp : isFresh (a, t)
      · simp [List.filter_cons, hp, z1, z2]
      · simp [List.filter_cons, hp, z1, z2]
    · have hpa : ¬((p.1 == a) = true) := by
        have : p.1 ≠ a := fun h => hpnot (h ▸ (List.mem_map_of_mem Prod.fst hmeml))
        simpa using this
      rcases ih hnd2 hmeml with ⟨ih1, ih2⟩
      by_cases hp : isFresh p
      · simp [List.filter_cons, hp, ih1, ih2]
      · simp [List.filter_cons, hp, hpa, ih1, ih2]

/-- Transaction record kept in the store (`Transaction` from
app/store/types): hash, status and optional receipt. Statuses and
receipts are embedded as strings; their structure is never inspected. -/
structure Transaction where
  hash : String
  status : String
  txReceipt : Option String := none
  deriving Repr, DecidableEq

/-- Modelled from the spec: the `Transaction.update` reducer
(app/store/transaction, not under src/) upserts the record by hash —
"on each event, upsert the corresponding TransactionRecord by hash"
(section 4.5); records are "created on first observation, updated on
subsequent status events for the same hash, never deleted"
(section 3). -/
def transactionUpdate (txs : List Transaction) (t : Transaction) : List Transaction :=
  if txs.any (fun x => x.hash == t.hash) then
    txs.map (fun x => if x.hash == t.hash then t else x)
  else txs ++ [t]

/-- Modelled from the spec: the `Token.invalidate` reducer (app/store,
not under src/) marks every token in the collection dirty — "mark every
token in the collection dirty=true (global invalidation)"
(section 4.5). -/
def tokenInvalidate (tokens : List (String × TokenInfo)) : List (String × TokenInfo) :=
  tokens.map (fun p => (p.1, { p.2 with dirty := true }))

/-- Store state visible to the observer callback: the transaction
history and the token collection. -/
structure AppState where
  transactions : List Transaction
  tokens : List (String × TokenInfo)
  deriving Repr, DecidableEq

/-- Embedding of the transaction-observer callback
(src/unnamed/part_000, lines 104-118): dispatch `Transaction.update`
for the observed hash, then read `store.getState()` — which already
reflects that dispatch, Redux dispatch being synchronous — and dispatch
`Token.invalidate` when the hash is found among the tracked
transactions. -/
def observerCallback (st : AppState) (txHash status : String) (receipt : Option String) :
    AppState :=
  let transactions :=
    transactionUpdate st.transactions { hash := txHash, status := status, txReceipt := receipt }
  let st1 : AppState := { st with transactions := transactions }
  if st1.transactions.any (fun transaction => transaction.hash == txHash) then
    { st1 with tokens := tokenInvalidate st1.tokens }
  else st1

/-- After an upsert for a hash, the history always contains a record
with that hash. -/
theorem any_transactionUpdate (txs : List Transaction) (t : Transaction) :
    (transactionUpdate txs t).any (fun x => x.hash == t.hash) = true := by
  by_cases h : txs.any (fun x => x.hash == t.hash)
  · rcases List.any_eq_true.mp h with ⟨x, hx, hxh⟩
    rw [transactionUpdate, if_pos h]
    apply List.any_eq_true.mpr
    refine ⟨t, List.mem_map.mpr ⟨x, hx, ?_⟩, by simp⟩
    simp [hxh]
  · rw [transactionUpdate, if_neg h]
    apply List.any_eq_true.mpr
    exact ⟨t, by simp, by simp⟩

/-- Specification function: value of the LAST entry of a raw key-value
sequence carrying the given key, if any. -/
def lastEntry {β : Type} : List (String × β) → String → Option β
  | [], _ => none
  | p :: l, k =>
    match lastEntry l k with
    | some v => some v
    | none => if p.1 == k then some p.2 else none

/-- Accumulator-generalised helper: looking a key up in the object
built by folding converted assignments over an initial object yields
the converted last entry with that key, falling back to the initial
object when the key never occurs. -/
theorem objGet_foldl_assign {β α : Type} (f : β → α) (l : List (String × β))
    (acc : List (String × α)) (k : String) :
    objGet (l.foldl (fun m p => objSet m p.1 (f p.2)) acc) k =
      match lastEntry l k with
      | some v => some (f v)
      | none => objGet acc k := by
  induction l generalizing acc with
  | nil => simp [lastEntry]
  | cons p l ih =>
    simp only [List.foldl_cons, lastEntry]
    rw [ih]
    cases hrec : lastEntry l k with
    | some v => simp
    | none =>
      by_cases hk : p.1 == k
      · have hv : p.1 = k := by simpa using hk
        simp [hk, hv, objGet_objSet_self]
      · have hne : k ≠ p.1 := fun hh => by simp [hh] at hk
        simp [hk, objGet_objSet_ne acc p.1 k (f p.2) hne]

/-- Embedding of the balance-table conversion
(src/unnamed/part_000, lines 219-221): each entry's decimal string
becomes a `BN`; the keys are copied verbatim, without normalisation. -/
def buildBalances (contractBalanceState : List (String × String)) : List (String × Nat) :=
  contractBalanceState.foldl (fun balances p => objSet balances p.1 (bnOfString p.2)) []

/-- Embedding of the contract-backed refresh body of `runQueryToken`
(src/unnamed/part_000, lines 210-247). The awaited on-chain reads —
`contract.getInit()` and `getBalancesMap(contract)` — are passed as
`Option` inputs: `none` embeds a fetch that throws, failing the task
before any token update is dispatched; the fields read out of the
decoded init map are totalised with empty-string defaults (the claims
never exercise a missing init parameter). The pool reference
(`getPool(token.address) || undefined`) and the wallet snapshot are
plain inputs. -/
def runQueryTokenBody (fetchedInit : Option (List Value))
    (fetchedBalanceState : Option (List (String × String)))
    (pool : Option Pool) (wallet : ConnectedWallet) (token : TokenInfo) :
    Option TokenInfo :=
  match fetchedInit with
  | none => none
  | some contractInitParams =>
    let contractInit := zilParamsToMap contractInitParams
    match fetchedBalanceState with
    | none => none
    | some contractBalanceState =>
      let balances := buildBalances contractBalanceState
      let balance := (objGet balances (toLowerCase wallet.addressInfo.byte20)).getD 0
      some
        { initialized := true
          dirty := false
          loading := false
          isZil := false
          address := token.address
          decimals := token.decimals
          init_supply := bnOfString ((objGet contractInit "init_supply").getD "")
          symbol := (objGet contractInit "symbol").getD ""
          name := (objGet contractInit "name").getD ""
          pool := pool
          balances := balances
          balance := balance }

/-- Modelled from the spec: the async-task wrapper `useAsyncTask`
(app/utils, not under src/) catches a task failure at the task
boundary — "refresh-task failures are caught at the task boundary and
do not crash the scheduler loop; the affected token's loading flag is
cleared" (section 7) — while a successful task's dispatched record
replaces the entry. -/
def taskBoundary (result : Option TokenInfo) (token : TokenInfo) : TokenInfo :=
  match result with
  | some updated => updated
  | none => { token with loading := false }

end Zilswap

namespace Preference

/-- Preference state (`PreferenceState`): the theme string. -/
structure PreferenceState where
  theme : String
  deriving Repr, DecidableEq

/-- Update payload (`PreferenceStateUpdateProps`): an optional theme. -/
structure PreferenceStateUpdateProps where
  theme : Option String := none
  deriving Repr, DecidableEq

/-- Embedding of `VALID_THEMES`
(src/src/app/store/preference/reducer.ts, line 5). -/
def VALID_THEMES : List String := ["dark", "light"]

/-- Embedding of `LOCAL_STORAGE_KEY_THEME`
(src/src/app/store/preference/reducer.ts, line 4). -/
def LOCAL_STORAGE_KEY_THEME : String := "zilswap:theme"

/-- Embedding of `checkToSaveThemePreference`
(src/src/app/store/preference/reducer.ts, lines 15-21), returning the
list of localStorage `setItem` calls it performs. The JS guard
`if (!theme) return` is falsy both for an absent theme and for the
empty string. -/
def checkToSaveThemePreference (currentTheme : String)
    (updatePayload : PreferenceStateUpdateProps) : List (String × String) :=
  match updatePayload.theme with
  | none => []
  | some theme =>
    if theme = "" then []
    else if theme ≠ currentTheme ∧ theme ∈ VALID_THEMES then
      [(LOCAL_STORAGE_KEY_THEME, theme)]
    else []

/-- Reducer actions: INIT and UPDATE carry a payload; an action of any
other type is represented by its type tag. -/
inductive PrefAction where
  | init (payload : PreferenceStateUpdateProps)
  | update (payload : PreferenceStateUpdateProps)
  | other (type : String)
  deriving Repr, DecidableEq

/-- Merge of an action payload into the state (the JS object spread of
state then payload): a present theme key overwrites the current one. -/
def mergePayload (state : PreferenceState) (payload : PreferenceStateUpdateProps) :
    PreferenceState :=
  { theme := payload.theme.getD state.theme }

/-- Embedding of the preference reducer
(src/src/app/store/preference/reducer.ts, lines 23-39): returns the new
state together with the list of localStorage writes performed while
reducing the action. -/
def reducer (state : PreferenceState) (action : PrefAction) :
    PreferenceState × List (String × String) :=
  match action with
  | .init payload => (mergePayload state payload, [])
  | .update payload =>
    (mergePayload state payload, checkToSaveThemePreference state.theme payload)
  | .other _ => (state, [])

end Preference

section Claims

open Zilswap

/-- Concrete uninitialized token used for witnesses and counterexamples. -/
def staleToken : TokenInfo :=
  { initialized := false, isZil := false, dirty := false, address := "a", decimals := 3,
    symbol := "TKA", name := "", balance := 0, init_supply := 0, balances := [] }

/-- Concrete initialized, non-dirty token used for witnesses and
counterexamples. -/
def freshToken : TokenInfo :=
  { initialized := true, isZil := false, dirty := false, address := "b", decimals := 3,
    symbol := "TKB", name := "", balance := 0, init_supply := 0, balances := [] }

/-- Concrete wallet with mixed-case address "0xAAA" and balance 500. -/
def wallet0 : ConnectedWallet :=
  { addressInfo := { byte20 := "0xAAA" }, balance := 500 }

/-- C1 (amended): for every incoming transaction event the
TransactionRecord is upserted by hash, and — because the membership
check reads the store after that upsert has been dispatched — the hash
is always found, so the callback marks every token dirty on every
event, whether or not the hash was previously tracked. -/
theorem observer_event_always_invalidates (st : AppState) (txHash status : String)
    (receipt : Option String) :
    observerCallback st txHash status receipt =
      { transactions :=
          transactionUpdate st.transactions
            { hash := txHash, status := status, txReceipt := receipt },
        tokens := tokenInvalidate st.tokens } := by
  unfold observerCallback
  have h := any_transactionUpdate st.transactions
    { hash := txHash, status := status, txReceipt := receipt }
  simp only at h
  simp [h]

/-- C1 counterexample: hash "h2" is not tracked in the initial state,
yet the observer callback still invalidates the token collection (the
sole token's dirty flag flips to true), contrary to the claim that an
event for an untracked hash causes no token invalidation. -/
theorem observer_untracked_invalidates_cex :
    (([] : List Transaction).any (fun x => x.hash == "h2")) = false
    ∧ (observerCallback { transactions := [], tokens := [("b", freshToken)] }
        "h2" "confirmed" none).tokens = [("b", { freshToken with dirty := true })]
    ∧ { freshToken with dirty := true } ≠ freshToken := by
  refine ⟨rfl, rfl, by decide⟩

/-- C2: in a collection with distinct addresses, a scheduler pass
dispatches, for every entry that is uninitialized or dirty, exactly one
flag update — setting it loading=true, dirty=false, initialized=true —
and exactly one refresh task, all synchronously before any task runs;
an entry that is initialized and not dirty receives neither. -/
theorem scheduler_refresh_policy (tokens : List (String × TokenInfo)) (a : String)
    (t : TokenInfo) (hnd : (tokens.map Prod.fst).Nodup) (hmem : (a, t) ∈ tokens) :
    (¬(t.initialized = true ∧ t.dirty = false) →
        (schedulerPass tokens).1.filter (fun u => u.1 == a) = [(a, schedulerFlip t)]
        ∧ (schedulerPass tokens).2.filter (fun x => x == a) = [a]
        ∧ (schedulerFlip t).loading = true
        ∧ (schedulerFlip t).dirty = false
        ∧ (schedulerFlip t).initialized = true)
    ∧ ((t.initialized = true ∧ t.dirty = false) →
        (schedulerPass tokens).1.filter (fun u => u.1 == a) = []
        ∧ (schedulerPass tokens).2.filter (fun x => x == a) = []) := by
  rcases scheduler_filter_mem tokens a t hnd hmem with ⟨h1, h2⟩
  rw [schedulerPass_eq_filter]
  constructor
  · intro hstale
    have hb : isFresh (a, t) = false := by
      simp only [isFresh]
      cases hi : t.initialized <;> cases hd : t.dirty <;> simp_all
    rw [hb] at h1 h2
    simp only [Bool.false_eq_true, if_false] at h1 h2
    exact ⟨h1, h2, rfl, rfl, rfl⟩
  · intro hfresh
    have hb : isFresh (a, t) = true := by
      simp only [isFresh]
      rw [hfresh.1, hfresh.2]
      rfl
    rw [hb] at h1 h2
    simp only [if_true] at h1 h2
    exact ⟨h1, h2⟩

/-- C2 witness: on the concrete two-token collection, the stale token
"a" receives exactly its flag flip and exactly one task. -/
theorem scheduler_refresh_policy_witness :
    (schedulerPass [("a", staleToken), ("b", freshToken)]).1.filter
        (fun u => u.1 == "a") = [("a", schedulerFlip staleToken)]
    ∧ (schedulerPass [("a", staleToken), ("b", freshToken)]).2.filter
        (fun x => x == "a") = ["a"]
    ∧ (schedulerFlip staleToken).loading = true
    ∧ (schedulerFlip staleToken).dirty = false
    ∧ (schedulerFlip staleToken).initialized = true :=
  (scheduler_refresh_policy [("a", staleToken), ("b", freshToken)] "a" staleToken
    (by decide) (by decide)).1 (by decide)

/-- C3 (amended): the contract-backed refresh computes ownBalance by
looking the lower-cased wallet address up against the balance table's
keys taken verbatim (exact match, last table entry wins, zero when
absent): only the wallet address is normalised, the table keys are
not. -/
theorem ownBalance_lowercased_wallet_verbatim_keys (contractInitParams : List Value)
    (contractBalanceState : List (String × String)) (pool : Option Pool)
    (wallet : ConnectedWallet) (token : TokenInfo) :
    (runQueryTokenBody (some contractInitParams) (some contractBalanceState) pool
        wallet token).map TokenInfo.balance
      = some (((lastEntry contractBalanceState
          (toLowerCase wallet.addressInfo.byte20)).map bnOfString).getD 0) := by
  simp only [runQueryTokenBody, Option.map_some']
  congr 1
  rw [buildBalances, objGet_foldl_assign bnOfString contractBalanceState []]
  cases lastEntry contractBalanceState (toLowerCase wallet.addressInfo.byte20) <;>
    simp [objGet]

/-- C3 counterexample: the balance table holds the wallet's own address
"0xAAA" in its original case; the lookup key is the lower-cased wallet
address "0xaaa", the table key is not normalised, so the entry is
missed and ownBalance is 0 instead of the claimed 500. -/
theorem ownBalance_case_mismatch_cex :
    toLowerCase "0xAAA" = "0xaaa"
    ∧ (runQueryTokenBody (some []) (some [("0xAAA", "500")]) none wallet0
        staleToken).map TokenInfo.balance = some 0
    ∧ (runQueryTokenBody (some []) (some [("0xAAA", "500")]) none wallet0
        staleToken).map TokenInfo.balance ≠ some 500 := by
  refine ⟨rfl, rfl, by decide⟩

/-- C4: after the bootstrap initializer runs with the connected wallet
of address "0xAAA" and balance 500, whatever the connector's token
list, the collection holds exactly one native-currency entry — the ZIL
pseudo-token — and it has ownBalance 500, a balance-map entry "0xaaa"
(the lower-cased wallet address) of 500, and initialized=true. -/
theorem bootstrap_single_zil_entry (zilswapTokens : List TokenDetails) :
    (bootstrapTokens zilswapTokens wallet0).filter (fun p => p.2.isZil)
        = [("zil", zilPseudoToken wallet0)]
    ∧ (zilPseudoToken wallet0).balance = 500
    ∧ objGet (zilPseudoToken wallet0).balances "0xaaa" = some 500
    ∧ (zilPseudoToken wallet0).initialized = true := by
  refine ⟨?_, rfl, rfl, rfl⟩
  unfold bootstrapTokens
  apply filter_objSet_unique _ _ _ _ rfl
  refine forall_foldl_objSet (P := fun u => u.isZil = false)
    (zilswapTokens.map mapZilswapToken) [] (fun p hp => nomatch hp) ?_
  intro u hu
  rcases List.mem_map.mp hu with ⟨d, _, rfl⟩
  rfl

/-- C5: when a refresh task fails (embedded as a failing on-chain
fetch), the task boundary catches the failure and clears the token's
loading flag, while dirty and initialized stay as the scheduler's
pre-emptive flip left them: dirty=false, initialized=true. -/
theorem refresh_failure_clears_loading_only (fetchedInit : Option (List Value))
    (fetchedBalanceState : Option (List (String × String))) (pool : Option Pool)
    (wallet : ConnectedWallet) (t : TokenInfo)
    (hfail : runQueryTokenBody fetchedInit fetchedBalanceState pool wallet
      (schedulerFlip t) = none) :
    (taskBoundary (runQueryTokenBody fetchedInit fetchedBalanceState pool wallet
        (schedulerFlip t)) (schedulerFlip t)).loading = false
    ∧ (taskBoundary (runQueryTokenBody fetchedInit fetchedBalanceState pool wallet
        (schedulerFlip t)) (schedulerFlip t)).dirty = false
    ∧ (taskBoundary (runQueryTokenBody fetchedInit fetchedBalanceState pool wallet
        (schedulerFlip t)) (schedulerFlip t)).initialized = true := by
  rw [hfail]
  exact ⟨rfl, rfl, rfl⟩

/-- C5 witness: a refresh whose init fetch fails leaves the concrete
token with loading=false, dirty=false, initialized=true. -/
theorem refresh_failure_clears_loading_only_witness :
    (taskBoundary (runQueryTokenBody none none none wallet0 (schedulerFlip staleToken))
        (schedulerFlip staleToken)).loading = false
    ∧ (taskBoundary (runQueryTokenBody none none none wallet0 (schedulerFlip staleToken))
        (schedulerFlip staleToken)).dirty = false
    ∧ (taskBoundary (runQueryTokenBody none none none wallet0 (schedulerFlip staleToken))
        (schedulerFlip staleToken)).initialized = true :=
  refresh_failure_clears_loading_only none none none wallet0 staleToken rfl

/-- C6: zilParamsToMap maps every name to the raw value of the last
entry carrying that name (so later duplicates win), and the empty
parameter sequence yields the empty mapping. -/
theorem zilParamsToMap_last_write_wins (params : List Value) (n : String) :
    objGet (zilParamsToMap params) n = lastValueNamed params n
    ∧ zilParamsToMap [] = [] := by
  constructor
  · show objGet (params.foldl (fun output set => objSet output set.vname set.value) []) n = _
    rw [objGet_foldl_params]
    cases lastValueNamed params n <;> simp [objGet]
  · rfl

/-- C7: mapZilswapToken returns a record with initialized=false,
dirty=false, isZil=false, zero balance and init supply, empty balance
mapping and name, and the descriptor's address, decimals and symbol
copied through (a total, pure function). -/
theorem mapZilswapToken_defaults (d : TokenDetails) :
    (mapZilswapToken d).initialized = false
    ∧ (mapZilswapToken d).dirty = false
    ∧ (mapZilswapToken d).isZil = false
    ∧ (mapZilswapToken d).balance = 0
    ∧ (mapZilswapToken d).init_supply = 0
    ∧ (mapZilswapToken d).balances = []
    ∧ (mapZilswapToken d).name = ""
    ∧ (mapZilswapToken d).address = d.address
    ∧ (mapZilswapToken d).decimals = d.decimals
    ∧ (mapZilswapToken d).symbol = d.symbol :=
  ⟨rfl, rfl, rfl, rfl, rfl, rfl, rfl, rfl, rfl, rfl⟩

/-- C8: the contract-backed refresh is deterministic in its inputs; two
runs against the same fetched init parameters, balance table, pool
reference, wallet and token produce identical records. -/
theorem runQueryToken_deterministic (i1 i2 : Option (List Value))
    (b1 b2 : Option (List (String × String))) (p1 p2 : Option Pool)
    (w1 w2 : ConnectedWallet) (t1 t2 : TokenInfo)
    (hi : i1 = i2) (hb : b1 = b2) (hp : p1 = p2) (hw : w1 = w2) (ht : t1 = t2) :
    runQueryTokenBody i1 b1 p1 w1 t1 = runQueryTokenBody i2 b2 p2 w2 t2 := by
  rw [hi, hb, hp, hw, ht]

/-- C8 witness: two runs on one concrete on-chain state coincide. -/
theorem runQueryToken_deterministic_witness :
    runQueryTokenBody (some []) (some [("0xaaa", "7")]) none wallet0 staleToken
      = runQueryTokenBody (some []) (some [("0xaaa", "7")]) none wallet0 staleToken :=
  runQueryToken_deterministic (some []) (some []) (some [("0xaaa", "7")])
    (some [("0xaaa", "7")]) none none wallet0 wallet0 staleToken staleToken
    rfl rfl rfl rfl rfl

/-- C9: the preference reducer returns the state unchanged, and writes
nothing to localStorage, for every action whose type is neither INIT
nor UPDATE. -/
theorem preference_reducer_frames_other_actions (state : Preference.PreferenceState)
    (type : String) :
    Preference.reducer state (Preference.PrefAction.other type) = (state, []) := rfl

/-- C10: an UPDATE writes the theme to localStorage exactly when the
payload carries a theme that differs from the current one and is "dark"
or "light"; the payload is nevertheless merged into the state
unconditionally, so the state's theme takes any payload value — valid
or not — while only valid changed values are persisted. -/
theorem preference_update_persists_only_valid_changed
    (s : Preference.PreferenceState) (p : Preference.PreferenceStateUpdateProps) :
    ((Preference.reducer s (Preference.PrefAction.update p)).2 ≠ []
      ↔ ∃ t, p.theme = some t ∧ t ≠ s.theme ∧ t ∈ Preference.VALID_THEMES)
    ∧ ∀ t, p.theme = some t →
        (Preference.reducer s (Preference.PrefAction.update p)).1.theme = t := by
  constructor
  · show Preference.checkToSaveThemePreference s.theme p ≠ [] ↔ _
    cases hth : p.theme with
    | none => simp [Preference.checkToSaveThemePreference, hth]
    | some t =>
      by_cases ht0 : t = ""
      · subst ht0
        simp [Preference.checkToSaveThemePreference, hth, Preference.VALID_THEMES]
      · by_cases hcond : t ≠ s.theme ∧ t ∈ Preference.VALID_THEMES
        · simp [Preference.checkToSaveThemePreference, hth, ht0, hcond]
        · simp only [Preference.checkToSaveThemePreference, hth, ht0, if_false,
            hcond, ne_eq, not_false_eq_true]
          simp [hcond]
  · intro t hth
    show (Preference.mergePayload s p).theme = t
    simp [Preference.mergePayload, hth]

end Claims
